import Mathlib

/-!
Verification of the JSON tree explorer (src/json_debug.py).

Shallow embedding: strings are lists of characters (ASCII semantics for
lowercasing and digit tests), JSON values are a tagged union mirroring
what Python's json.load produces, machine dictionaries are association
lists with distinct keys, and every operation of the program that the
claims touch is translated into an executable Lean function.  Python
exceptions are made explicit: a lookup failure that the source catches
(KeyError / IndexError) becomes a `none`-style result, an exception the
source does not catch (TypeError, AttributeError, KeyError outside a
matching `except`) becomes an explicit error constructor.
-/

/-- Strings of the embedded program: lists of characters. -/
abbrev Str := List Char

/-- Lowercasing, as applied by `str.lower()` (ASCII range). -/
def lowerStr (s : Str) : Str := s.map Char.toLower

/-- Python's `part.isdigit()`: nonempty and every character a digit. -/
def pyIsDigit (s : Str) : Bool := !s.isEmpty && s.all Char.isDigit

/-- Python's `int(part)` on a string of digits: decimal value. -/
def parseNat (s : Str) : Nat := s.foldl (fun a c => a * 10 + (c.toNat - 48)) 0

/-- Stripping of leading and trailing whitespace, as `int()` applies to
its argument before parsing. -/
def stripWS (s : Str) : Str :=
  ((s.dropWhile Char.isWhitespace).reverse.dropWhile Char.isWhitespace).reverse

/-- The tail of an integer literal after its first digit: further digits,
with single underscores allowed only between digits. -/
def pyDigitsTail : Str → Bool
  | [] => true
  | c :: rest =>
    if c = '_' then
      match rest with
      | [] => false
      | d :: rest2 => d.isDigit && pyDigitsTail rest2
    else c.isDigit && pyDigitsTail rest

/-- A valid digit sequence for `int()`: starts and ends with a digit,
single underscores permitted as grouping between digits. -/
def pyIntDigits : Str → Bool
  | [] => false
  | c :: rest => c.isDigit && pyDigitsTail rest

/-- Python's `int(txt)` on an arbitrary string: whitespace is stripped,
then an optional sign followed by digits (single underscores allowed as
grouping between digits, and ignored for the value); anything else is a
ValueError (`none`). -/
def pyInt (s : Str) : Option Int :=
  match stripWS s with
  | '-' :: rest =>
    if pyIntDigits rest then some (-(parseNat (rest.filter (fun c => !(c = '_'))) : Int)) else none
  | '+' :: rest =>
    if pyIntDigits rest then some ((parseNat (rest.filter (fun c => !(c = '_'))) : Int)) else none
  | t => if pyIntDigits t then some ((parseNat (t.filter (fun c => !(c = '_'))) : Int)) else none

example : pyInt [' ', '1', '_', '0', ' '] = some 10 := rfl
example : pyInt ['-', '2'] = some (-2) := rfl
example : pyInt ['1', '_'] = none := rfl
example : pyInt ['_', '1'] = none := rfl
example : pyInt ['+', ' ', '1'] = none := rfl

/-- Substring test, Python's `needle in hay`. -/
def isSubstr (needle hay : Str) : Bool :=
  needle.isPrefixOf hay ||
    (match hay with
     | [] => false
     | _ :: t => isSubstr needle t)

/-- Splitting `path.split("/")`: cut at every slash, keeping empty pieces, never
returning an empty list (splitting the empty string gives `[[]]`). -/
def splitSlash : Str → List Str
  | [] => [[]]
  | c :: cs =>
    match splitSlash cs with
    | [] => [[]]
    | s :: ss => if c = '/' then [] :: s :: ss else (c :: s) :: ss

/-- The decimal digit character for `n < 10`. -/
def digitChar (n : Nat) : Char := Char.ofNat (48 + n)

/-- Decimal representation of a natural number, with explicit fuel so that
the definition is structurally recursive (and hence evaluates by `decide`). -/
def natReprAux : Nat → Nat → Str
  | 0, _ => []
  | fuel + 1, n =>
    if n < 10 then [digitChar n] else natReprAux fuel (n / 10) ++ [digitChar (n % 10)]

/-- Python's `str(index)` for a non-negative index. -/
def natRepr (n : Nat) : Str := natReprAux (n + 1) n

/-- Path concatenation of `populate_tree`:
`current_path = f"\x7bpath\x7d/\x7bkey\x7d" if path else key`. -/
def joinPath (p s : Str) : Str := if p = [] then s else p ++ '/' :: s

mutual
/-- JSON values as produced by Python's `json.load`: objects keep their
key order as an association list, numbers are modelled by integers (no claim
depends on float semantics). -/
inductive JsonValue where
  | null : JsonValue
  | bool : Bool → JsonValue
  | num : Int → JsonValue
  | str : Str → JsonValue
  | arr : JList → JsonValue
  | obj : JMap → JsonValue
deriving DecidableEq
/-- A JSON array: a list of JSON values (mutual with `JsonValue`). -/
inductive JList where
  | nil : JList
  | cons : JsonValue → JList → JList
deriving DecidableEq
/-- A JSON object: an ordered association list of key/value pairs
(mutual with `JsonValue`). -/
inductive JMap where
  | nil : JMap
  | cons : Str → JsonValue → JMap → JMap
deriving DecidableEq
end

/-- Length of a JSON array. -/
def JList.length : JList → Nat
  | .nil => 0
  | .cons _ t => t.length + 1

/-- Zero-based element access in a JSON array (`xs[i]` for `0 <= i`). -/
def JList.get? : JList → Nat → Option JsonValue
  | .nil, _ => none
  | .cons v _, 0 => some v
  | .cons _ t, n + 1 => t.get? n

/-- Key lookup in a JSON object (`d[k]`): first matching key. -/
def JMap.lookup : JMap → Str → Option JsonValue
  | .nil, _ => none
  | .cons k v t, q => if k = q then some v else t.lookup q

/-- Does the object contain the key? -/
def JMap.hasKey : JMap → Str → Bool
  | .nil, _ => false
  | .cons k _ t, q => k = q || t.hasKey q

/-- The entries of a JSON object, in order. -/
def JMap.entries : JMap → List (Str × JsonValue)
  | .nil => []
  | .cons k v t => (k, v) :: t.entries

/-- The elements of a JSON array, in order. -/
def JList.toList : JList → List JsonValue
  | .nil => []
  | .cons v t => v :: t.toList

/-- Outcome of one path-resolution step or of a whole resolution in
`get_value_at_path`: a value, a `None` return (KeyError/IndexError caught by
the source), or an uncaught TypeError escaping the function. -/
inductive PyResult where
  | ok : JsonValue → PyResult
  | none : PyResult
  | typeError : PyResult
deriving DecidableEq

/-- One step of `get_value_at_path`'s loop body: the subscript
`current[int(part)]` when `part.isdigit()`, else `current[part]`.
Python semantics: a digit segment is always converted to an integer, so on
an object it is an integer-key lookup (always a KeyError on a
string-keyed dict, caught, hence `none`); on an array it indexes; on a
string it indexes into the characters; on a scalar it is a TypeError.
A non-digit segment is a key lookup on an object and a TypeError on
anything else. -/
def pyIndex (cur : JsonValue) (part : Str) : PyResult :=
  if pyIsDigit part then
    match cur with
    | .arr xs =>
      match xs.get? (parseNat part) with
      | some v => .ok v
      | Option.none => .none
    | .obj _ => .none
    | .str s =>
      match s.get? (parseNat part) with
      | some c => .ok (.str [c])
      | Option.none => .none
    | _ => .typeError
  else
    match cur with
    | .obj kvs =>
      match kvs.lookup part with
      | some v => .ok v
      | Option.none => .none
    | _ => .typeError

/-- The `for part in parts` loop of `get_value_at_path`: empty parts are
skipped, a caught KeyError/IndexError returns `None` at once, a TypeError
aborts the whole call. -/
def resolveParts : JsonValue → List Str → PyResult
  | cur, [] => .ok cur
  | cur, p :: ps =>
    if p = [] then resolveParts cur ps
    else
      match pyIndex cur p with
      | .ok v => resolveParts v ps
      | r => r

/-- The method `JsonTreeExplorer.get_value_at_path(path)` over a loaded document. -/
def get_value_at_path (doc : JsonValue) (path : Str) : PyResult :=
  if path = [] then .ok doc else resolveParts doc (splitSlash path)

example : get_value_at_path (.obj (.cons ['a'] (.num 5) .nil)) ['a'] = .ok (.num 5) := rfl
example : get_value_at_path (.obj (.cons ['a'] (.num 5) .nil)) ['a', '/', 'b'] = .typeError := rfl
example : get_value_at_path (.obj (.cons ['0'] (.num 1) .nil)) ['0'] = .none := rfl
example : get_value_at_path (.arr (.cons (.num 7) .nil)) ['0'] = .ok (.num 7) := rfl

mutual
/-- The (PathKey, JsonValue) pairs of the tree nodes that
`populate_tree(parent, data, path)` inserts: one node per object entry
(labelled with the key), one per array element (labelled `[index]`), and one
preview leaf per primitive value, each carrying the `/`-joined path built
during population. -/
def nodes : JsonValue → Str → List (Str × JsonValue)
  | .obj kvs, path => nodesMap kvs path
  | .arr xs, path => nodesList xs 0 path
  | v, path => [(path, v)]
/-- Nodes contributed by the elements of an array starting at index `i`. -/
def nodesList : JList → Nat → Str → List (Str × JsonValue)
  | .nil, _, _ => []
  | .cons v t, i, path =>
    (joinPath path (natRepr i), v) :: nodes v (joinPath path (natRepr i)) ++ nodesList t (i + 1) path
/-- Nodes contributed by the entries of an object. -/
def nodesMap : JMap → Str → List (Str × JsonValue)
  | .nil, _ => []
  | .cons k v t, path =>
    (joinPath path k, v) :: nodes v (joinPath path k) ++ nodesMap t path
end

/-- A key that survives the round trip through `/`-joined paths and
`get_value_at_path`: nonempty, not made purely of digits (those would be
re-parsed as integer subscripts), and free of `/` (which would be re-split). -/
def goodKey (k : Str) : Bool := !k.isEmpty && !k.all Char.isDigit && !k.contains '/'

mutual
/-- Well-formedness of a document for the amended round-trip property:
every object has distinct keys (as a Python dict does) and every key is a
`goodKey`. -/
def goodVal : JsonValue → Bool
  | .null => true
  | .bool _ => true
  | .num _ => true
  | .str _ => true
  | .arr xs => goodList xs
  | .obj kvs => goodMap kvs
/-- Condition `goodVal` on every element of an array. -/
def goodList : JList → Bool
  | .nil => true
  | .cons v t => goodVal v && goodList t
/-- Condition `goodKey` on every key, keys distinct, `goodVal` on every value. -/
def goodMap : JMap → Bool
  | .nil => true
  | .cons k v t => goodKey k && !t.hasKey k && goodVal v && goodMap t
end

example :
    nodes (.obj (.cons ['a'] (.num 5) .nil)) [] =
      [(['a'], .num 5), (['a'], .num 5)] := rfl
example :
    nodes (.arr (.cons (.num 7) (.cons .null .nil))) [] =
      [(['0'], .num 7), (['0'], .num 7), (['1'], .null), (['1'], .null)] := rfl
example : goodVal (.obj (.cons ['0'] (.num 1) .nil)) = false := rfl

/-- The fixed schema key for document filenames. -/
def nombreKey : Str := ['n', 'o', 'm', 'b', 'r', 'e', '_', 'd', 'o', 'c', 'u', 'm', 'e', 'n', 't', 'o', 's']

/-- The fixed schema key for document payloads. -/
def listaKey : Str := ['l', 'i', 's', 't', 'a', '_', 'd', 'o', 'c', 'u', 'm', 'e', 'n', 't', 'o', 's']

/-- Python list indexing with negative indices
(`xs[i]` is `xs[len(xs)+i]` for `-len(xs) <= i < 0`); out of range is an
IndexError (`none`). -/
def pyListGet (xs : JList) (i : Int) : Option JsonValue :=
  if 0 ≤ i then xs.get? i.toNat
  else if 0 ≤ i + xs.length then xs.get? (i + xs.length).toNat
  else none

/-- Python string indexing with negative indices, same convention. -/
def pyStrGet (s : Str) (i : Int) : Option Char :=
  if 0 ≤ i then s.get? i.toNat
  else if 0 ≤ i + s.length then s.get? (i + s.length).toNat
  else none

/-- Result of a subscript inside `on_tree_select`'s try block, whose
`except` clause catches exactly ValueError and IndexError. -/
inductive TryStep where
  | ok : JsonValue → TryStep
  | caught : TryStep
  | crash : TryStep
deriving DecidableEq

/-- The subscript `container[doc_index]` with `doc_index : int`, as it
behaves under `except (ValueError, IndexError)`: an array or string index
out of range is caught, an integer lookup on a dict raises KeyError
(uncaught), a scalar subscript raises TypeError (uncaught). -/
def pySubscriptInt (u : JsonValue) (i : Int) : TryStep :=
  match u with
  | .arr xs =>
    match pyListGet xs i with
    | some v => .ok v
    | none => .caught
  | .str s =>
    match pyStrGet s i with
    | some c => .ok (.str [c])
    | none => .caught
  | _ => .crash

/-- Python's `len(v)` where a TypeError (no length) is uncaught. -/
def pyLen : JsonValue → Option Nat
  | .arr xs => some xs.length
  | .str s => some s.length
  | .obj ms => some ms.entries.length
  | _ => none

/-- Outcome of `on_tree_select` for one selected path: nothing displayed
(resolution returned None), the value shown in the text view, a call to
`render_document(payload, filename)`, or an uncaught exception. -/
inductive SelectOutcome where
  | nothing : SelectOutcome
  | text : JsonValue → SelectOutcome
  | document : JsonValue → JsonValue → SelectOutcome
  | crash : SelectOutcome
deriving DecidableEq

/-- The document-routing logic of `on_tree_select` after the selected
path's value resolved to `value`: if the literal key `nombre_documentos`
occurs anywhere among the `/`-split segments, the final segment is parsed
as an integer `i` and, when `i < len(current_json.get(nombre_documentos, []))`,
both `current_json[nombre_documentos][i]` and
`current_json[lista_documentos][i]` are fetched and handed to
`render_document`; a ValueError or IndexError on the way falls through to
the plain text view, any other exception is uncaught. -/
def routeSelection (doc : JsonValue) (parts : List Str) (value : JsonValue) : SelectOutcome :=
  if nombreKey ∈ parts then
    match pyInt (parts.getLastD []) with
    | none => .text value
    | some i =>
      match doc with
      | .obj ms =>
        let names := (ms.lookup nombreKey).getD (.arr .nil)
        match pyLen names with
        | none => .crash
        | some len =>
          if i < (len : Int) then
            match ms.lookup nombreKey with
            | none => .crash
            | some u =>
              match pySubscriptInt u i with
              | .crash => .crash
              | .caught => .text value
              | .ok filename =>
                match ms.lookup listaKey with
                | none => .crash
                | some u2 =>
                  match pySubscriptInt u2 i with
                  | .crash => .crash
                  | .caught => .text value
                  | .ok payload => .document filename payload
          else .text value
      | _ => .crash
  else .text value

/-- The method `JsonTreeExplorer.on_tree_select` for a selected item carrying `path`:
resolve the path, route document selections to `render_document`, and
show every other value in the text view — all guarded by the source's
`if value is not None:`, which skips both a resolution miss and a path
that addresses a JSON null (json.load represents JSON null as Python
None, so the guard cannot tell the two apart and does nothing in either
case). -/
def on_tree_select (doc : JsonValue) (path : Str) : SelectOutcome :=
  match get_value_at_path doc path with
  | .typeError => .crash
  | .none => .nothing
  | .ok .null => .nothing
  | .ok value => routeSelection doc (splitSlash path) value

example :
    on_tree_select
      (.obj (.cons nombreKey (.arr (.cons (.str ['a']) .nil))
        (.cons listaKey (.arr (.cons (.str ['b']) .nil))
          (.cons ['x'] (.obj (.cons nombreKey (.arr (.cons .null .nil)) .nil)) .nil))))
      (['x', '/'] ++ nombreKey ++ ['/', '0']) = .nothing := rfl

/-- Value of one base64 alphabet character, `none` outside the alphabet. -/
def b64val (c : Char) : Option Nat :=
  if 'A' ≤ c ∧ c ≤ 'Z' then some (c.toNat - 65)
  else if 'a' ≤ c ∧ c ≤ 'z' then some (c.toNat - 97 + 26)
  else if '0' ≤ c ∧ c ≤ '9' then some (c.toNat - 48 + 52)
  else if c = '+' then some 62
  else if c = '/' then some 63
  else none

/-- Decoding `base64.b64decode` modelled on well-formed input: four-character groups,
`=` padding only at the end; anything else is a binascii.Error (`none`).
Bytes are naturals below 256. -/
def b64decode : Str → Option (List Nat)
  | [] => some []
  | a :: b :: c :: d :: rest =>
    match b64val a, b64val b with
    | some va, some vb =>
      if c = '=' then
        if d = '=' ∧ rest = [] then some [va * 4 + vb / 16] else none
      else
        match b64val c with
        | some vc =>
          if d = '=' then
            if rest = [] then some [va * 4 + vb / 16, vb % 16 * 16 + vc / 4] else none
          else
            match b64val d with
            | some vd =>
              match b64decode rest with
              | some t => some ((va * 4 + vb / 16) :: (vb % 16 * 16 + vc / 4) :: (vc % 4 * 64 + vd) :: t)
              | none => none
            | none => none
        | none => none
    | _, _ => none
  | _ => none

example : b64decode ['Q', 'Q', '=', '='] = some [65] := rfl
example : b64decode ['U', 'G', 'F', '5'] = some [80, 97, 121] := rfl

/-- First position at which `names[j] == filename` holds under Python
equality, scanning in order — `list.index` (a non-string entry never
equals a string). -/
def JList.indexOfStr : JList → Str → Option Nat
  | .nil, _ => none
  | .cons v t, q =>
    match v with
    | .str s =>
      if s = q then some 0
      else (t.indexOfStr q).map (· + 1)
    | _ => (t.indexOfStr q).map (· + 1)

/-- Result of `get_document_index`, whose `except` catches exactly
ValueError and KeyError: an index, a `None` return, or an uncaught
exception (AttributeError on a value with no `.index`, TypeError when the
whole document is not a dict). -/
inductive IdxResult where
  | found : Nat → IdxResult
  | nf : IdxResult
  | raised : IdxResult
deriving DecidableEq

/-- Position of the first occurrence of `needle` in `hay`
(`str.index` on strings). -/
def findSub (needle hay : Str) : Option Nat :=
  if needle.isPrefixOf hay then some 0
  else
    match hay with
    | [] => none
    | _ :: t => (findSub needle t).map (· + 1)

/-- The method `JsonTreeExplorer.get_document_index(filename)`:
`current_json[nombre_documentos].index(filename)` with ValueError and
KeyError turned into `None`; a `.index` on a value that has none
(dict, scalar) or a subscript on a non-dict document raises. -/
def get_document_index (doc : JsonValue) (filename : Str) : IdxResult :=
  match doc with
  | .obj ms =>
    match ms.lookup nombreKey with
    | none => .nf
    | some (.arr xs) =>
      match xs.indexOfStr filename with
      | some i => .found i
      | none => .nf
    | some (.str s) =>
      match findSub filename s with
      | some i => .found i
      | none => .nf
    | some _ => .raised
  | _ => .raised

/-- Outcome of `save_current_document`: a silent return (no bytes written,
no dialog), the exact bytes written to the chosen destination (followed by
a success message), or an error dialog from the catch-all `except`. -/
inductive SaveOutcome where
  | noop : SaveOutcome
  | saved : List Nat → SaveOutcome
  | errorShown : SaveOutcome
deriving DecidableEq

/-- The method `JsonTreeExplorer.save_current_document()` with the file dialog
abstracted into `savePathGiven` (the user picked a destination or
cancelled): an empty current document name returns at once; an
unresolvable name makes `get_document_index` return `None` and the `if
doc_index is not None` block is skipped without any report; otherwise the
payload `current_json[lista_documentos][doc_index]` is base64-decoded and
its bytes written; any exception inside the try is reported as an error
dialog. -/
def save_current_document (doc : JsonValue) (currentDocName : Str) (savePathGiven : Bool) : SaveOutcome :=
  if currentDocName = [] then .noop
  else if !savePathGiven then .noop
  else
    match get_document_index doc currentDocName with
    | .raised => .errorShown
    | .nf => .noop
    | .found i =>
      match doc with
      | .obj ms =>
        match ms.lookup listaKey with
        | none => .errorShown
        | some u =>
          match pySubscriptInt u (i : Int) with
          | .crash => .errorShown
          | .caught => .errorShown
          | .ok (.str payload) =>
            match b64decode payload with
            | some bytes => .saved bytes
            | none => .errorShown
          | .ok _ => .errorShown
      | _ => .errorShown

/-- The suffix of a string starting at its last `.`, if any. -/
def extAfterLastDot : Str → Option Str
  | [] => none
  | c :: cs =>
    match extAfterLastDot cs with
    | some e => some e
    | none => if c = '.' then some (c :: cs) else none

/-- Python's `os.path.splitext(filename)[1]`: the extension from the last dot,
where leading dots of the name do not count as extension separators. -/
def splitextExt (name : Str) : Str :=
  let lead := (name.takeWhile (· = '.')).length
  match extAfterLastDot (name.drop lead) with
  | some e => e
  | none => []

/-- The image extensions recognised by `render_document`. -/
def imageExts : List Str :=
  [['.', 'j', 'p', 'g'], ['.', 'j', 'p', 'e', 'g'], ['.', 'p', 'n', 'g'],
   ['.', 'g', 'i', 'f'], ['.', 'b', 'm', 'p']]

/-- The pdf extension recognised by `render_document`. -/
def pdfExt : Str := ['.', 'p', 'd', 'f']

/-- The viewer's mutable fields that the rendering lifecycle touches.
Temporary files are modelled as numbered paths; `nextTemp` is the
allocator of fresh names that `tempfile.NamedTemporaryFile` guarantees;
`disk` is the set of scratch paths currently existing on disk. -/
structure ViewerState where
  temp_files : List Nat
  disk : List Nat
  nextTemp : Nat
  current_doc_name : Str
  current_page : Nat
  total_pages : Nat
deriving DecidableEq

/-- The method `JsonTreeExplorer.cleanup_temp_files`: best-effort deletion of every
tracked path from disk, then the tracked list is cleared. -/
def cleanup_temp_files (s : ViewerState) : ViewerState :=
  { s with disk := s.disk.filter (fun p => !s.temp_files.contains p), temp_files := [] }

/-- The field updates of `render_image` on the success path of the PIL
backend (the source sets `current_page = 1` and `total_pages = 1`). -/
def render_image (s : ViewerState) : ViewerState :=
  { s with current_page := 1, total_pages := 1 }

/-- The field updates of `render_pdf` on the success path of the fitz
backend, whose reported page count is `pages`. -/
def render_pdf (s : ViewerState) (pages : Nat) : ViewerState :=
  { s with total_pages := pages, current_page := 0 }

/-- What `render_document` put on screen. -/
inductive RenderOutcome where
  | imageShown : RenderOutcome
  | pdfShown : RenderOutcome
  | unsupportedMsg : RenderOutcome
  | errorShown : RenderOutcome
deriving DecidableEq

/-- The method `JsonTreeExplorer.render_document(base64_data, filename)`: clean up the
previous temp files, decode the payload (failure is caught and reported),
create a temp file and write the bytes (for every extension), remember the
document name, then dispatch on the lowercased extension — image backend,
pdf backend (page count `pdfPages` abstracts the fitz library), or the
static unsupported-preview message in the text view. -/
def render_document (s : ViewerState) (pdfPages : Nat) (payload : Str) (filename : Str) :
    ViewerState × RenderOutcome :=
  let s1 := cleanup_temp_files s
  match b64decode payload with
  | none => (s1, .errorShown)
  | some _ =>
    let ext := lowerStr (splitextExt filename)
    let tpath := s1.nextTemp
    let s2 := { s1 with
      disk := s1.disk ++ [tpath],
      temp_files := s1.temp_files ++ [tpath],
      nextTemp := s1.nextTemp + 1,
      current_doc_name := filename }
    if ext ∈ imageExts then (render_image s2, .imageShown)
    else if ext = pdfExt then (render_pdf s2 pdfPages, .pdfShown)
    else (s2, .unsupportedMsg)

mutual
/-- A display tree node: a label and the child subtrees, as held by the
ttk treeview that `on_search_change` walks. -/
inductive TNode where
  | node : Str → TForest → TNode
deriving DecidableEq
/-- An ordered forest of display tree nodes. -/
inductive TForest where
  | nil : TForest
  | cons : TNode → TForest → TForest
deriving DecidableEq
end

mutual
/-- Labels of a tree in document order. -/
def labelsNode : TNode → List Str
  | .node l cs => l :: labelsForest cs
/-- Labels of a forest in document order. -/
def labelsForest : TForest → List Str
  | .nil => []
  | .cons n t => labelsNode n ++ labelsForest t
end

mutual
/-- The helper `search_in_tree`: the (label, has-search-match-tag) assignment after a
non-empty lowercased query `ql` was matched against every label. -/
def markNode (ql : Str) : TNode → List (Str × Bool)
  | .node l cs => (l, isSubstr ql (lowerStr l)) :: markForest ql cs
/-- The helper `search_in_tree` over a forest. -/
def markForest (ql : Str) : TForest → List (Str × Bool)
  | .nil => []
  | .cons n t => markNode ql n ++ markForest ql t
end

mutual
/-- Tag clearing: every node untagged. -/
def clearNode : TNode → List (Str × Bool)
  | .node l cs => (l, false) :: clearForest cs
/-- Tag clearing over a forest. -/
def clearForest : TForest → List (Str × Bool)
  | .nil => []
  | .cons n t => clearNode n ++ clearForest t
end

/-- The method `JsonTreeExplorer.on_search_change`: lowercase the query, clear every
tag, and — unless the query is empty — tag exactly the nodes whose
lowercased label contains it.  The result is the (label, tagged)
assignment over the whole tree in document order. -/
def on_search_change (q : Str) (f : TForest) : List (Str × Bool) :=
  let ql := lowerStr q
  if ql = [] then clearForest f else markForest ql f

/-- C2, counterexample: the claim says that when the container is an
Object a numeric-looking segment is looked up as a literal string key.
In the document made of the single object entry with key the numeric
string of character 1, that key is present with value the string x, yet
resolving the path made of that very segment yields None: the source
converts the digit segment with `int(part)` and subscripts the dict with
the integer, which never matches a string key. -/
theorem c2_numeric_object_cex :
    JMap.lookup (.cons ['1'] (.str ['x']) .nil) ['1'] = some (.str ['x'])
    ∧ get_value_at_path (.obj (.cons ['1'] (.str ['x']) .nil)) ['1'] = PyResult.none :=
  ⟨rfl, rfl⟩

/-- C2, amended: a purely-numeric segment is always converted to an
integer subscript regardless of the container: on an Array it is an index
(in-bounds gives the element, out-of-bounds a caught IndexError, i.e.
NotFound); on an Object the integer lookup always misses (NotFound), even
when the object holds that very string as a key — it is never looked up
as a literal string key. -/
theorem c2_numeric_segment_amended (part : Str) (hd : pyIsDigit part = true) :
    (∀ ms : JMap, pyIndex (.obj ms) part = PyResult.none)
    ∧ (∀ xs : JList, pyIndex (.arr xs) part =
        match xs.get? (parseNat part) with
        | some v => PyResult.ok v
        | none => PyResult.none) := by
  constructor
  · intro ms
    simp [pyIndex, hd]
  · intro xs
    simp [pyIndex, hd]

/-- Witness for `c2_numeric_segment_amended` at the segment of the single
character 1, on an object holding that key. -/
theorem c2_numeric_segment_amended_witness :
    pyIsDigit ['1'] = true
    ∧ pyIndex (.obj (.cons ['1'] (.str ['x']) .nil)) ['1'] = PyResult.none :=
  ⟨by decide, (c2_numeric_segment_amended ['1'] (by decide)).1 _⟩

/-- C7, counterexample: the claim says external path resolution can only
return the value or fail with NotFound, never an untyped error.  In the
document with the single entry key a mapped to the number 5, resolving
the externally supplied path a/b subscripts the number 5 with the string
b — a TypeError that the source's `except (KeyError, IndexError)` does
not catch, so the call raises instead of returning None. -/
theorem c7_typeerror_cex :
    get_value_at_path (.obj (.cons ['a'] (.num 5) .nil)) ['a', '/', 'b'] = PyResult.typeError :=
  rfl

/-- C7, amended: resolution of an externally supplied path either returns
the addressed value or None (for a caught KeyError/IndexError), except
that subscripting a Null, Bool or Number value with any segment, or an
Array with a non-numeric segment, raises an uncaught TypeError, which
propagates out of the whole `get_value_at_path` call. -/
theorem c7_resolution_amended (part : Str) (hne : part ≠ []) :
    pyIndex JsonValue.null part = PyResult.typeError
    ∧ (∀ b, pyIndex (.bool b) part = PyResult.typeError)
    ∧ (∀ n, pyIndex (.num n) part = PyResult.typeError)
    ∧ (pyIsDigit part = false → ∀ xs : JList, pyIndex (.arr xs) part = PyResult.typeError)
    ∧ (∀ cur ps, pyIndex cur part = PyResult.typeError →
        resolveParts cur (part :: ps) = PyResult.typeError) := by
  refine ⟨?_, ?_, ?_, ?_, ?_⟩
  · by_cases hd : pyIsDigit part = true <;> simp [pyIndex, hd]
  · intro b
    by_cases hd : pyIsDigit part = true <;> simp [pyIndex, hd]
  · intro n
    by_cases hd : pyIsDigit part = true <;> simp [pyIndex, hd]
  · intro hd xs
    simp [pyIndex, hd]
  · intro cur ps hstep
    simp [resolveParts, hne, hstep]

/-- Witness for `c7_resolution_amended` at the segment of the single
character b. -/
theorem c7_resolution_amended_witness :
    (['b'] : Str) ≠ [] ∧ pyIndex (.num 5) ['b'] = PyResult.typeError :=
  ⟨by decide, (c7_resolution_amended ['b'] (by decide)).2.2.1 5⟩

/-- C9, code bug: on a successful image open the source sets
`current_page = 1` (line 378) where every other part of the program uses
zero-based pages (`render_pdf` starts at 0, `prev_page`/`next_page` clamp
to `[0, total_pages-1]`, `update_page_controls` displays
`current_page + 1`, so the label reads Page 2/1 for an image).  Evaluating
the embedded code at a concrete image open shows the state. -/
theorem c9_image_page_bug :
    (render_document ⟨[], [], 0, [], 0, 0⟩ 0 ['Q', 'Q', '=', '='] ['a', '.', 'p', 'n', 'g']).1.current_page = 1
    ∧ (render_document ⟨[], [], 0, [], 0, 0⟩ 0 ['Q', 'Q', '=', '='] ['a', '.', 'p', 'n', 'g']).1.total_pages = 1 :=
  ⟨rfl, rfl⟩

/-- The empty-path special case of `get_value_at_path` is redundant:
resolution always equals the loop over the split segments. -/
theorem get_eq_resolveParts (doc : JsonValue) (path : Str) :
    get_value_at_path doc path = resolveParts doc (splitSlash path) := by
  cases path with
  | nil => rfl
  | cons c cs => rfl

/-- The resolution loop depends only on the nonempty segments: skipped
empty parts do not affect the result. -/
theorem resolveParts_eq_filter (l : List Str) :
    ∀ cur, resolveParts cur l = resolveParts cur (l.filter (fun s => !s.isEmpty)) := by
  induction l with
  | nil => intro cur; rfl
  | cons p ps ih =>
    intro cur
    by_cases hp : p = []
    · subst hp
      simpa [resolveParts] using ih cur
    · have hne : (!p.isEmpty) = true := by
        cases p with
        | nil => exact absurd rfl hp
        | cons a as => rfl
      simp only [List.filter_cons, hne, if_pos]
      simp only [resolveParts, if_neg hp]
      cases pyIndex cur p with
      | ok v => exact ih v
      | none => rfl
      | typeError => rfl

/-- C10, confirmed: resolving the empty path returns the whole document,
and resolution is invariant under inserting or removing empty segments —
any two path strings with the same nonempty `/`-split segments resolve
identically. -/
theorem c10_empty_segments (doc : JsonValue) :
    get_value_at_path doc [] = PyResult.ok doc
    ∧ ∀ p q : Str,
        (splitSlash p).filter (fun s => !s.isEmpty) = (splitSlash q).filter (fun s => !s.isEmpty) →
        get_value_at_path doc p = get_value_at_path doc q := by
  refine ⟨rfl, ?_⟩
  intro p q h
  rw [get_eq_resolveParts, get_eq_resolveParts,
    resolveParts_eq_filter (splitSlash p) doc, resolveParts_eq_filter (splitSlash q) doc, h]

/-- Witness for `c10_empty_segments`: the paths a and //a/ resolve to the
same value in a concrete document. -/
theorem c10_empty_segments_witness :
    (splitSlash ['a']).filter (fun s => !s.isEmpty) =
      (splitSlash ['/', '/', 'a', '/']).filter (fun s => !s.isEmpty)
    ∧ get_value_at_path (.obj (.cons ['a'] (.num 2) .nil)) ['a'] =
        get_value_at_path (.obj (.cons ['a'] (.num 2) .nil)) ['/', '/', 'a', '/'] :=
  ⟨by decide, (c10_empty_segments (.obj (.cons ['a'] (.num 2) .nil))).2 _ _ (by decide)⟩

/-- Temp-file bookkeeping of one `render_document` call with a decodable
payload, for every extension branch: the previously tracked files are
deleted and untracked first, then exactly one fresh scratch file is
allocated, written and tracked. -/
theorem render_document_temp (s : ViewerState) (pg : Nat) (payload fname : Str)
    (h : (b64decode payload).isSome = true) :
    (render_document s pg payload fname).1.temp_files = [s.nextTemp]
    ∧ (render_document s pg payload fname).1.nextTemp = s.nextTemp + 1
    ∧ (render_document s pg payload fname).1.disk =
        s.disk.filter (fun p => !s.temp_files.contains p) ++ [s.nextTemp] := by
  obtain ⟨b, hb⟩ := Option.isSome_iff_exists.mp h
  unfold render_document cleanup_temp_files
  rw [hb]
  refine ⟨?_, ?_, ?_⟩ <;> (dsimp only []; split <;> [skip; split] <;> simp [render_image, render_pdf])

/-- C5, confirmed: every render first empties the registry's tracked set
(deleting the tracked files) before allocating the new scratch file, so
after two sequential opens exactly the second session's temp file is
tracked and on disk while the first session's has been deleted. -/
theorem c5_session_exclusivity (s : ViewerState) (pg1 pg2 : Nat) (p1 f1 p2 f2 : Str)
    (h1 : (b64decode p1).isSome = true) (h2 : (b64decode p2).isSome = true) :
    (cleanup_temp_files s).temp_files = []
    ∧ (render_document s pg1 p1 f1).1.temp_files = [s.nextTemp]
    ∧ (render_document (render_document s pg1 p1 f1).1 pg2 p2 f2).1.temp_files = [s.nextTemp + 1]
    ∧ (s.nextTemp + 1) ∈ (render_document (render_document s pg1 p1 f1).1 pg2 p2 f2).1.disk
    ∧ s.nextTemp ∉ (render_document (render_document s pg1 p1 f1).1 pg2 p2 f2).1.disk := by
  obtain ⟨t1, n1, d1⟩ := render_document_temp s pg1 p1 f1 h1
  obtain ⟨t2, n2, d2⟩ := render_document_temp (render_document s pg1 p1 f1).1 pg2 p2 f2 h2
  refine ⟨rfl, t1, ?_, ?_, ?_⟩
  · rw [t2, n1]
  · rw [d2, n1]
    simp
  · rw [d2, t1, n1]
    intro hmem
    rcases List.mem_append.mp hmem with hf | hf
    · have := (List.mem_filter.mp hf).2
      simp [List.contains] at this
    · simp at hf

/-- Witness for `c5_session_exclusivity`: two concrete sequential opens. -/
theorem c5_session_exclusivity_witness :
    (b64decode ['Q', 'Q', '=', '=']).isSome = true
    ∧ (render_document (render_document ⟨[], [], 0, [], 0, 0⟩ 0 ['Q', 'Q', '=', '='] ['a', '.', 'p', 'n', 'g']).1
        0 ['Q', 'Q', '=', '='] ['b', '.', 'p', 'd', 'f']).1.temp_files = [0 + 1] :=
  ⟨by decide,
    (c5_session_exclusivity ⟨[], [], 0, [], 0, 0⟩ 0 0
      ['Q', 'Q', '=', '='] ['a', '.', 'p', 'n', 'g'] ['Q', 'Q', '=', '='] ['b', '.', 'p', 'd', 'f']
      (by decide) (by decide)).2.2.1⟩

/-- C8, counterexample: the claim says an open of a document with an
unsupported extension requests no temp file from the registry.  Opening
the concrete document a.txt with a valid payload leaves one freshly
allocated scratch file tracked (the source creates the temp file before
dispatching on the extension), while the static fallback message is
shown. -/
theorem c8_tempfile_cex :
    (render_document ⟨[], [], 0, [], 0, 0⟩ 0 ['Q', 'Q', '=', '='] ['a', '.', 't', 'x', 't']).1.temp_files = [0]
    ∧ (render_document ⟨[], [], 0, [], 0, 0⟩ 0 ['Q', 'Q', '=', '='] ['a', '.', 't', 'x', 't']).2 =
        RenderOutcome.unsupportedMsg :=
  ⟨rfl, rfl⟩

/-- C8, amended: for an extension that is neither an image extension nor
pdf, `render_document` still requests and tracks exactly one scratch file
(the decode-and-write happens before the extension dispatch); only the
backend open is skipped — the outcome is the static fallback message in
the text view. -/
theorem c8_unsupported_amended (s : ViewerState) (pg : Nat) (payload fname : Str)
    (h : (b64decode payload).isSome = true)
    (himg : lowerStr (splitextExt fname) ∉ imageExts)
    (hpdf : lowerStr (splitextExt fname) ≠ pdfExt) :
    (render_document s pg payload fname).1.temp_files = [s.nextTemp]
    ∧ (render_document s pg payload fname).2 = RenderOutcome.unsupportedMsg := by
  refine ⟨(render_document_temp s pg payload fname h).1, ?_⟩
  obtain ⟨b, hb⟩ := Option.isSome_iff_exists.mp h
  unfold render_document
  rw [hb]
  simp [himg, hpdf]

/-- Witness for `c8_unsupported_amended` at the concrete document a.txt. -/
theorem c8_unsupported_amended_witness :
    (b64decode ['Q', 'Q', '=', '=']).isSome = true
    ∧ lowerStr (splitextExt ['a', '.', 't', 'x', 't']) ∉ imageExts
    ∧ (render_document ⟨[], [5], 9, [], 0, 0⟩ 0 ['Q', 'Q', '=', '='] ['a', '.', 't', 'x', 't']).2 =
        RenderOutcome.unsupportedMsg :=
  ⟨by decide, by decide,
    (c8_unsupported_amended ⟨[], [5], 9, [], 0, 0⟩ 0 ['Q', 'Q', '=', '='] ['a', '.', 't', 'x', 't']
      (by decide) (by decide) (by decide)).2⟩

mutual
/-- The helper `search_in_tree` tags a node exactly when the lowercased query is a
substring of its lowercased label (single node with subtree). -/
theorem markNode_eq (ql : Str) : ∀ n : TNode,
    markNode ql n = (labelsNode n).map (fun l => (l, isSubstr ql (lowerStr l)))
  | .node l cs => by
    simp [markNode, labelsNode, markForest_eq ql cs]
/-- The helper `search_in_tree` over a forest, label by label. -/
theorem markForest_eq (ql : Str) : ∀ f : TForest,
    markForest ql f = (labelsForest f).map (fun l => (l, isSubstr ql (lowerStr l)))
  | .nil => rfl
  | .cons n t => by
    simp [markForest, labelsForest, markNode_eq ql n, markForest_eq ql t]
end

mutual
/-- Tag clearing leaves every node of a subtree untagged. -/
theorem clearNode_eq : ∀ n : TNode,
    clearNode n = (labelsNode n).map (fun l => (l, false))
  | .node l cs => by
    simp [clearNode, labelsNode, clearForest_eq cs]
/-- Tag clearing leaves every node of a forest untagged. -/
theorem clearForest_eq : ∀ f : TForest,
    clearForest f = (labelsForest f).map (fun l => (l, false))
  | .nil => rfl
  | .cons n t => by
    simp [clearForest, labelsForest, clearNode_eq n, clearForest_eq t]
end

/-- C6, confirmed: after `on_search_change` with a non-empty query the
tagged nodes are exactly those whose lowercased label contains the
lowercased query as a substring, and with an empty query no node carries
the match tag. -/
theorem c6_search_matches (q : Str) (f : TForest) :
    (q = [] → on_search_change q f = (labelsForest f).map (fun l => (l, false)))
    ∧ (q ≠ [] → on_search_change q f =
        (labelsForest f).map (fun l => (l, isSubstr (lowerStr q) (lowerStr l)))) := by
  constructor
  · intro hq
    subst hq
    simpa [on_search_change] using clearForest_eq f
  · intro hq
    have hne : lowerStr q ≠ [] := by
      simpa [lowerStr] using hq
    simpa [on_search_change, hne] using markForest_eq (lowerStr q) f

/-- Witness for `c6_search_matches`: the query B on a two-node tree tags
exactly the node labelled ab. -/
theorem c6_search_matches_witness :
    (['B'] : Str) ≠ []
    ∧ on_search_change ['B']
        (.cons (.node ['a', 'b'] .nil) (.cons (.node ['z', 'z'] .nil) .nil)) =
      (labelsForest (.cons (.node ['a', 'b'] .nil) (.cons (.node ['z', 'z'] .nil) .nil))).map
        (fun l => (l, isSubstr (lowerStr ['B']) (lowerStr l))) :=
  ⟨by decide,
    (c6_search_matches ['B'] (.cons (.node ['a', 'b'] .nil) (.cons (.node ['z', 'z'] .nil) .nil))).2
      (by decide)⟩

/-- A successful array access implies the index is below the length. -/
theorem JList.get?_some_lt : ∀ {xs : JList} {n : Nat} {v : JsonValue},
    xs.get? n = some v → n < xs.length
  | .nil, n, v, h => by cases h
  | .cons _ _, 0, _, _ => by simp [JList.length]
  | .cons _ t, n + 1, v, h => by
    have := @JList.get?_some_lt t n v h
    simp [JList.length]
    omega

/-- A successful Python-style list access implies the index is below the
length. -/
theorem pyListGet_lt {xs : JList} {i : Int} {v : JsonValue}
    (h : pyListGet xs i = some v) : i < (xs.length : Int) := by
  unfold pyListGet at h
  split at h
  · have := JList.get?_some_lt h
    omega
  · split at h
    · omega
    · cases h

/-- The document-routing branch of `on_tree_select`, characterised: with
the two pairing arrays present, a selection is routed to
`render_document` exactly when the names key occurs anywhere among the
split segments, the final segment parses as an integer `i`, and both
pairing arrays admit the Python-style access at `i`. -/
theorem routeSelection_doc_iff (ms : JMap) (names lista : JList) (parts : List Str)
    (v f p : JsonValue)
    (hn : ms.lookup nombreKey = some (.arr names))
    (hl : ms.lookup listaKey = some (.arr lista)) :
    routeSelection (.obj ms) parts v = .document f p ↔
      nombreKey ∈ parts
      ∧ ∃ i : Int, pyInt (parts.getLastD []) = some i
          ∧ pyListGet names i = some f ∧ pyListGet lista i = some p := by
  constructor
  · intro h
    simp only [routeSelection, hn, hl, Option.getD_some, pyLen, pySubscriptInt] at h
    split at h
    case isFalse => cases h
    case isTrue hmem =>
      refine ⟨hmem, ?_⟩
      split at h
      case h_1 => cases h
      case h_2 i hget =>
        split at h
        case isFalse => cases h
        case isTrue hlt =>
          cases hgf : pyListGet names i with
          | none => simp [hgf] at h
          | some f0 =>
            simp only [hgf] at h
            cases hgp : pyListGet lista i with
            | none => simp [hgp] at h
            | some p0 =>
              simp only [hgp, SelectOutcome.document.injEq] at h
              obtain ⟨rfl, rfl⟩ := h
              exact ⟨i, hget, hgf, hgp⟩
  · rintro ⟨hmem, i, hget, hgf, hgp⟩
    have hlt : i < (names.length : Int) := pyListGet_lt hgf
    have hget' : pyInt (parts.getLast?.getD []) = some i := by
      simpa [List.getLastD_eq_getLast?] using hget
    simp [routeSelection, hn, hl, pyLen, pySubscriptInt, hmem, hget', hlt, hgf, hgp]

/-- C3, amended: with both pairing arrays present at the top level, a
selected path is routed to a document reference (the pair handed to
`render_document`) exactly when the path resolves to a non-None value —
that is, a value other than JSON null, which json.load represents as
Python None and the `if value is not None` guard therefore skips — the
names key occurs anywhere among the path's `/`-split segments (not
necessarily second to last), and the final segment parses as an integer
`i` admitted by both arrays under Python indexing (negative `i` counts
from the end); the reference then carries `names[i]` and `payloads[i]`. -/
theorem c3_routing_amended (ms : JMap) (names lista : JList) (path : Str) (f p : JsonValue)
    (hn : ms.lookup nombreKey = some (.arr names))
    (hl : ms.lookup listaKey = some (.arr lista)) :
    on_tree_select (.obj ms) path = .document f p ↔
      (∃ v, get_value_at_path (.obj ms) path = .ok v ∧ v ≠ .null)
      ∧ nombreKey ∈ splitSlash path
      ∧ ∃ i : Int, pyInt ((splitSlash path).getLastD []) = some i
          ∧ pyListGet names i = some f ∧ pyListGet lista i = some p := by
  cases hval : get_value_at_path (.obj ms) path with
  | typeError => simp [on_tree_select, hval]
  | none => simp [on_tree_select, hval]
  | ok v =>
    cases v with
    | null => simp [on_tree_select, hval]
    | bool b =>
      simp only [on_tree_select, hval]
      rw [routeSelection_doc_iff ms names lista _ _ f p hn hl]
      simp
    | num n =>
      simp only [on_tree_select, hval]
      rw [routeSelection_doc_iff ms names lista _ _ f p hn hl]
      simp
    | str s =>
      simp only [on_tree_select, hval]
      rw [routeSelection_doc_iff ms names lista _ _ f p hn hl]
      simp
    | arr xs =>
      simp only [on_tree_select, hval]
      rw [routeSelection_doc_iff ms names lista _ _ f p hn hl]
      simp
    | obj kvs =>
      simp only [on_tree_select, hval]
      rw [routeSelection_doc_iff ms names lista _ _ f p hn hl]
      simp

/-- The document used to refute C3: the pairing arrays at top level plus
an unrelated branch x whose object reuses the key nombre_documentos with
a nested object below it. -/
def c3Doc : JsonValue :=
  .obj (.cons nombreKey (.arr (.cons (.str ['a']) (.cons (.str ['b']) .nil)))
    (.cons listaKey (.arr (.cons (.str ['p', '0']) (.cons (.str ['p', '1']) .nil)))
      (.cons ['x']
        (.obj (.cons nombreKey
          (.obj (.cons ['y'] (.arr (.cons (.num 10) (.cons (.num 20) .nil))) .nil)) .nil))
        .nil)))

/-- The path used to refute C3: x/nombre_documentos/y/1. -/
def c3Path : Str := ['x', '/'] ++ nombreKey ++ ['/', 'y', '/', '1']

/-- C3, counterexample: the claim says a document reference is produced
if and only if the path's final two segments are the names key and an
index.  On `c3Doc`, the path x/nombre_documentos/y/1 — whose final two
segments are y and 1 — resolves to the plain number 20, yet the source
routes it to `render_document` with `names[1]` and `payloads[1]`,
because it only tests membership of the names key anywhere among the
segments and parses the last segment as an index. -/
theorem c3_routing_cex :
    splitSlash c3Path = [['x'], nombreKey, ['y'], ['1']]
    ∧ get_value_at_path c3Doc c3Path = .ok (.num 20)
    ∧ on_tree_select c3Doc c3Path = .document (.str ['b']) (.str ['p', '1']) :=
  ⟨rfl, rfl, rfl⟩

/-- Witness for `c3_routing_amended`: a concrete selection of
nombre_documentos/0 yields the document reference names[0], payloads[0]. -/
theorem c3_routing_amended_witness :
    JMap.lookup (.cons nombreKey (.arr (.cons (.str ['a']) .nil))
        (.cons listaKey (.arr (.cons (.str ['b']) .nil)) .nil)) nombreKey =
      some (.arr (.cons (.str ['a']) .nil))
    ∧ on_tree_select
        (.obj (.cons nombreKey (.arr (.cons (.str ['a']) .nil))
          (.cons listaKey (.arr (.cons (.str ['b']) .nil)) .nil)))
        (nombreKey ++ ['/', '0']) = .document (.str ['a']) (.str ['b']) :=
  ⟨rfl,
    (c3_routing_amended
      (.cons nombreKey (.arr (.cons (.str ['a']) .nil))
        (.cons listaKey (.arr (.cons (.str ['b']) .nil)) .nil))
      (.cons (.str ['a']) .nil) (.cons (.str ['b']) .nil)
      (nombreKey ++ ['/', '0']) (.str ['a']) (.str ['b']) rfl rfl).mpr
      ⟨⟨.str ['a'], rfl, by decide⟩, by decide, 0, rfl, rfl, rfl⟩⟩

/-- C4, amended: save re-resolves the document by filename — the first
index of the names array whose entry equals the current document name —
and writes exactly the base64-decode of the payload at that index; but
when the filename can no longer be resolved, the source's
`if doc_index is not None` guard is simply skipped and save silently does
nothing (no bytes written and no failure reported). -/
theorem c4_save_amended (ms : JMap) (names lista : JList) (name : Str)
    (hn : ms.lookup nombreKey = some (.arr names))
    (hl : ms.lookup listaKey = some (.arr lista))
    (hne : name ≠ []) :
    (names.indexOfStr name = none → save_current_document (.obj ms) name true = .noop)
    ∧ (∀ (i : Nat) (payload : Str) (bytes : List Nat),
        names.indexOfStr name = some i →
        lista.get? i = some (.str payload) →
        b64decode payload = some bytes →
        save_current_document (.obj ms) name true = .saved bytes) := by
  constructor
  · intro hidx
    simp [save_current_document, get_document_index, hn, hne, hidx]
  · intro i payload bytes hidx hget hdec
    have hsub : pySubscriptInt (.arr lista) ((i : Nat) : Int) = .ok (.str payload) := by
      simp [pySubscriptInt, pyListGet, hget]
    simp [save_current_document, get_document_index, hn, hne, hidx, hl, hsub, hdec]

/-- C4, counterexample: the claim says an unresolvable filename makes
save fail with a reported NotFound.  In a concrete document whose names
array holds only a, saving under the current name z resolves to no index
and the source returns without writing anything and without reporting
any failure — a silent no-op. -/
theorem c4_silent_noop_cex :
    get_document_index
        (.obj (.cons nombreKey (.arr (.cons (.str ['a']) .nil))
          (.cons listaKey (.arr (.cons (.str ['Q', 'Q', '=', '=']) .nil)) .nil))) ['z'] = .nf
    ∧ save_current_document
        (.obj (.cons nombreKey (.arr (.cons (.str ['a']) .nil))
          (.cons listaKey (.arr (.cons (.str ['Q', 'Q', '=', '=']) .nil)) .nil))) ['z'] true = .noop :=
  ⟨rfl, rfl⟩

/-- Witness for `c4_save_amended`: saving the resolvable document a
writes exactly the decoded payload byte 65. -/
theorem c4_save_amended_witness :
    (['a'] : Str) ≠ []
    ∧ save_current_document
        (.obj (.cons nombreKey (.arr (.cons (.str ['a']) .nil))
          (.cons listaKey (.arr (.cons (.str ['Q', 'Q', '=', '=']) .nil)) .nil))) ['a'] true =
      .saved [65] :=
  ⟨by decide,
    (c4_save_amended (.cons nombreKey (.arr (.cons (.str ['a']) .nil))
        (.cons listaKey (.arr (.cons (.str ['Q', 'Q', '=', '=']) .nil)) .nil))
      (.cons (.str ['a']) .nil) (.cons (.str ['Q', 'Q', '=', '=']) .nil) ['a'] rfl rfl
      (by decide)).2 0 ['Q', 'Q', '=', '='] [65] rfl rfl rfl⟩

/-- Digit characters are digits. -/
theorem digitChar_isDigit {n : Nat} (h : n < 10) : (digitChar n).isDigit = true := by
  interval_cases n <;> decide

/-- Digit characters are not the path separator. -/
theorem digitChar_ne_slash {n : Nat} (h : n < 10) : digitChar n ≠ '/' := by
  interval_cases n <;> decide

/-- The numeric value of a digit character. -/
theorem digitChar_val {n : Nat} (h : n < 10) : (digitChar n).toNat - 48 = n := by
  interval_cases n <;> decide

/-- Parsing after appending one digit. -/
theorem parseNat_append_digit (a : Str) (c : Char) :
    parseNat (a ++ [c]) = parseNat a * 10 + (c.toNat - 48) := by
  simp [parseNat, List.foldl_append]

/-- With enough fuel, the decimal representation is nonempty, made of
digits, free of slashes, and parses back to the number. -/
theorem natReprAux_spec : ∀ fuel n, n < fuel →
    natReprAux fuel n ≠ []
    ∧ (natReprAux fuel n).all Char.isDigit = true
    ∧ '/' ∉ natReprAux fuel n
    ∧ parseNat (natReprAux fuel n) = n := by
  intro fuel
  induction fuel with
  | zero => intro n h; omega
  | succ fuel ih =>
    intro n h
    by_cases h10 : n < 10
    · refine ⟨?_, ?_, ?_, ?_⟩ <;> simp [natReprAux, h10, digitChar_isDigit, digitChar_ne_slash,
        Ne.symm (digitChar_ne_slash h10), parseNat, digitChar_val h10]
    · have hdiv : n / 10 < fuel := by omega
      obtain ⟨hne, hall, hsl, hval⟩ := ih (n / 10) hdiv
      have hmod : n % 10 < 10 := by omega
      rw [show natReprAux (fuel + 1) n = natReprAux fuel (n / 10) ++ [digitChar (n % 10)] from by
        simp [natReprAux, h10]]
      refine ⟨by simp, ?_, ?_, ?_⟩
      · simp [List.all_append, hall, digitChar_isDigit hmod]
      · simp [List.mem_append, hsl, Ne.symm (digitChar_ne_slash hmod)]
      · rw [parseNat_append_digit, hval, digitChar_val hmod]
        omega

/-- Python's `str(i)` is never empty. -/
theorem natRepr_ne_nil (n : Nat) : natRepr n ≠ [] :=
  (natReprAux_spec (n + 1) n (by omega)).1

/-- Python's `str(i)` passes the `isdigit` test. -/
theorem natRepr_isdigit (n : Nat) : pyIsDigit (natRepr n) = true := by
  obtain ⟨hne, hall, _, _⟩ := natReprAux_spec (n + 1) n (by omega)
  have : (natRepr n).isEmpty = false := by
    cases hx : natRepr n with
    | nil => exact absurd hx (natRepr_ne_nil n)
    | cons a as => rfl
  simp [pyIsDigit, this]
  simpa using hall

/-- Python's `str(i)` contains no path separator. -/
theorem natRepr_no_slash (n : Nat) : '/' ∉ natRepr n :=
  (natReprAux_spec (n + 1) n (by omega)).2.2.1

/-- Parsing inverts printing: `int(str(i)) = i`. -/
theorem parseNat_natRepr (n : Nat) : parseNat (natRepr n) = n :=
  (natReprAux_spec (n + 1) n (by omega)).2.2.2

/-- Splitting never yields an empty list of parts. -/
theorem splitSlash_ne_nil : ∀ s : Str, splitSlash s ≠ []
  | [] => by simp [splitSlash]
  | c :: cs => by
    cases hcs : splitSlash cs with
    | nil => simp [splitSlash, hcs]
    | cons s ss =>
      by_cases hc : c = '/' <;> simp [splitSlash, hcs, hc]

/-- A slash-free string splits into itself alone. -/
theorem splitSlash_no_slash : ∀ s : Str, '/' ∉ s → splitSlash s = [s]
  | [], _ => rfl
  | c :: cs, h => by
    have hc : c ≠ '/' := fun hc => h (by simp [hc])
    have hcs : '/' ∉ cs := fun hm => h (by simp [hm])
    simp [splitSlash, splitSlash_no_slash cs hcs, hc]

/-- Splitting distributes over a separator in the middle. -/
theorem splitSlash_append : ∀ a b : Str, splitSlash (a ++ '/' :: b) = splitSlash a ++ splitSlash b
  | [], b => by
    cases hsb : splitSlash b with
    | nil => exact absurd hsb (splitSlash_ne_nil b)
    | cons s ss => simp [splitSlash, hsb]
  | c :: cs, b => by
    cases hcs : splitSlash cs with
    | nil => exact absurd hcs (splitSlash_ne_nil cs)
    | cons s ss =>
      have ih := splitSlash_append cs b
      by_cases hc : c = '/' <;>
        simp [splitSlash, ih, hcs, hc]

/-- Resolution over concatenated segment lists composes. -/
theorem resolveParts_append (l1 l2 : List Str) : ∀ cur : JsonValue,
    resolveParts cur (l1 ++ l2) =
      match resolveParts cur l1 with
      | .ok v => resolveParts v l2
      | r => r := by
  induction l1 with
  | nil => intro cur; rfl
  | cons p ps ih =>
    intro cur
    by_cases hp : p = []
    · simp [resolveParts, hp, ih cur]
    · simp only [List.cons_append, resolveParts, if_neg hp]
      cases pyIndex cur p with
      | ok v => exact ih v
      | none => rfl
      | typeError => rfl

/-- One population step composes with resolution: if `p` resolves to `v`
and the nonempty slash-free segment `s` subscripts `v` to `w`, then the
`/`-joined extension of `p` by `s` resolves to `w`. -/
theorem resolve_join (doc : JsonValue) (p s : Str) (v w : JsonValue)
    (hres : get_value_at_path doc p = .ok v) (hs : s ≠ []) (hslash : '/' ∉ s)
    (hstep : pyIndex v s = .ok w) :
    get_value_at_path doc (joinPath p s) = .ok w := by
  by_cases hp : p = []
  · subst hp
    have hv : doc = v := by
      simpa [get_value_at_path] using hres
    subst hv
    rw [joinPath, if_pos rfl, get_eq_resolveParts, splitSlash_no_slash s hslash]
    simp [resolveParts, hs, hstep]
  · rw [joinPath, if_neg hp, get_eq_resolveParts, splitSlash_append p s,
      splitSlash_no_slash s hslash, resolveParts_append]
    rw [get_eq_resolveParts] at hres
    rw [hres]
    simp [resolveParts, hs, hstep]

/-- A listed entry's key is reported by `hasKey`. -/
theorem JMap.hasKey_of_mem : ∀ (ms : JMap) (k : Str) (v : JsonValue),
    (k, v) ∈ ms.entries → ms.hasKey k = true
  | .nil, _, _, h => by simp [JMap.entries] at h
  | .cons k0 v0 t, k, v, h => by
    rcases (by simpa [JMap.entries] using h : (k, v) = (k0, v0) ∨ (k, v) ∈ t.entries) with heq | htl
    · obtain ⟨rfl, rfl⟩ := Prod.mk.injEq .. ▸ heq
      simp [JMap.hasKey]
    · simp [JMap.hasKey, JMap.hasKey_of_mem t k v htl]

/-- In a well-formed object (distinct keys) every listed entry is found by
lookup. -/
theorem goodMap_lookup : ∀ (ms : JMap), goodMap ms = true →
    ∀ (k : Str) (v : JsonValue), (k, v) ∈ ms.entries → ms.lookup k = some v
  | .nil, _, k, v, h => by simp [JMap.entries] at h
  | .cons k0 v0 t, hg, k, v, h => by
    simp only [goodMap, Bool.and_eq_true] at hg
    obtain ⟨⟨⟨hk0, hdup⟩, hv0⟩, ht⟩ := hg
    rcases (by simpa [JMap.entries] using h : (k, v) = (k0, v0) ∨ (k, v) ∈ t.entries) with heq | htl
    · obtain ⟨rfl, rfl⟩ := Prod.mk.injEq .. ▸ heq
      simp [JMap.lookup]
    · have hne : k0 ≠ k := by
        intro hkk
        subst hkk
        have := JMap.hasKey_of_mem t k0 v htl
        simp [this] at hdup
      simp [JMap.lookup, hne, goodMap_lookup t ht k v htl]

/-- In a well-formed object every listed entry has a good key and a
well-formed value. -/
theorem goodMap_entry : ∀ (ms : JMap), goodMap ms = true →
    ∀ (k : Str) (v : JsonValue), (k, v) ∈ ms.entries → goodKey k = true ∧ goodVal v = true
  | .nil, _, k, v, h => by simp [JMap.entries] at h
  | .cons k0 v0 t, hg, k, v, h => by
    simp only [goodMap, Bool.and_eq_true] at hg
    obtain ⟨⟨⟨hk0, hdup⟩, hv0⟩, ht⟩ := hg
    rcases (by simpa [JMap.entries] using h : (k, v) = (k0, v0) ∨ (k, v) ∈ t.entries) with heq | htl
    · obtain ⟨rfl, rfl⟩ := Prod.mk.injEq .. ▸ heq
      exact ⟨hk0, hv0⟩
    · exact goodMap_entry t ht k v htl

/-- A good key is nonempty. -/
theorem goodKey_ne_nil {k : Str} (h : goodKey k = true) : k ≠ [] := by
  intro hk
  subst hk
  simp [goodKey] at h

/-- A good key contains no slash. -/
theorem goodKey_no_slash {k : Str} (h : goodKey k = true) : '/' ∉ k := by
  intro hm
  simp [goodKey] at h
  exact h.2 hm

/-- A good key fails Python's `isdigit` test. -/
theorem goodKey_not_digit {k : Str} (h : goodKey k = true) : pyIsDigit k = false := by
  simp only [goodKey, Bool.and_eq_true] at h
  obtain ⟨⟨he, hd⟩, hc⟩ := h
  have hall : k.all Char.isDigit = false := by
    simpa using hd
  simp [pyIsDigit, hall]

/-- A good key present in an object resolves through one step. -/
theorem pyIndex_obj_key (full : JMap) (k : Str) (w : JsonValue)
    (hk : pyIsDigit k = false) (hlook : full.lookup k = some w) :
    pyIndex (.obj full) k = .ok w := by
  simp [pyIndex, hk, hlook]

/-- A populated array index resolves through one step. -/
theorem pyIndex_arr_idx (full : JList) (i : Nat) (v : JsonValue)
    (hget : full.get? i = some v) :
    pyIndex (.arr full) (natRepr i) = .ok v := by
  simp [pyIndex, natRepr_isdigit, parseNat_natRepr, hget]

mutual
/-- Every node that population creates below a resolvable location of a
well-formed value resolves back to the value it was built from. -/
theorem nodes_resolve : ∀ (v doc : JsonValue) (p : Str),
    get_value_at_path doc p = .ok v → goodVal v = true →
    ∀ pr ∈ nodes v p, get_value_at_path doc pr.1 = .ok pr.2
  | .null, doc, p, hres, _ => by
    intro pr hpr
    obtain rfl : pr = (p, JsonValue.null) := by simpa [nodes] using hpr
    exact hres
  | .bool b, doc, p, hres, _ => by
    intro pr hpr
    obtain rfl : pr = (p, JsonValue.bool b) := by simpa [nodes] using hpr
    exact hres
  | .num n, doc, p, hres, _ => by
    intro pr hpr
    obtain rfl : pr = (p, JsonValue.num n) := by simpa [nodes] using hpr
    exact hres
  | .str s, doc, p, hres, _ => by
    intro pr hpr
    obtain rfl : pr = (p, JsonValue.str s) := by simpa [nodes] using hpr
    exact hres
  | .arr xs, doc, p, hres, hg => by
    intro pr hpr
    have hxs : goodList xs = true := by simpa [goodVal] using hg
    exact nodesList_resolve xs xs 0 doc p hres hxs (fun j w hj => by simpa using hj) pr
      (by simpa [nodes] using hpr)
  | .obj kvs, doc, p, hres, hg => by
    intro pr hpr
    have hkvs : goodMap kvs = true := by simpa [goodVal] using hg
    exact nodesMap_resolve kvs kvs doc p hres hkvs (fun k v hkv => hkv) pr
      (by simpa [nodes] using hpr)
/-- As `nodes_resolve`, for the tail of an array whose elements sit at
offset `i` of the resolvable array `full`. -/
theorem nodesList_resolve : ∀ (sub full : JList) (i : Nat) (doc : JsonValue) (p : Str),
    get_value_at_path doc p = .ok (.arr full) → goodList sub = true →
    (∀ j w, sub.get? j = some w → full.get? (i + j) = some w) →
    ∀ pr ∈ nodesList sub i p, get_value_at_path doc pr.1 = .ok pr.2
  | .nil, full, i, doc, p, _, _, _ => by
    intro pr hpr
    simp [nodesList] at hpr
  | .cons v t, full, i, doc, p, hres, hg, hsub => by
    intro pr hpr
    have hfull : full.get? i = some v := by simpa using hsub 0 v rfl
    simp only [goodList, Bool.and_eq_true] at hg
    have hstep : get_value_at_path doc (joinPath p (natRepr i)) = .ok v :=
      resolve_join doc p (natRepr i) (.arr full) v hres (natRepr_ne_nil i) (natRepr_no_slash i)
        (pyIndex_arr_idx full i v hfull)
    rcases (by simpa [nodesList] using hpr :
        pr = (joinPath p (natRepr i), v) ∨ pr ∈ nodes v (joinPath p (natRepr i))
          ∨ pr ∈ nodesList t (i + 1) p) with h1 | h2 | h3
    · obtain rfl := h1
      exact hstep
    · exact nodes_resolve v doc (joinPath p (natRepr i)) hstep hg.1 pr h2
    · refine nodesList_resolve t full (i + 1) doc p hres hg.2 ?_ pr h3
      intro j w hj
      have hfj := hsub (j + 1) w (by simpa [JList.get?] using hj)
      rw [show i + (j + 1) = i + 1 + j from by omega] at hfj
      exact hfj
/-- As `nodes_resolve`, for a suffix of the entries of the resolvable
well-formed object `full`. -/
theorem nodesMap_resolve : ∀ (sub full : JMap) (doc : JsonValue) (p : Str),
    get_value_at_path doc p = .ok (.obj full) → goodMap full = true →
    (∀ k v, (k, v) ∈ sub.entries → (k, v) ∈ full.entries) →
    ∀ pr ∈ nodesMap sub p, get_value_at_path doc pr.1 = .ok pr.2
  | .nil, full, doc, p, _, _, _ => by
    intro pr hpr
    simp [nodesMap] at hpr
  | .cons k v t, full, doc, p, hres, hgf, hsub => by
    intro pr hpr
    have hmem : (k, v) ∈ full.entries := hsub k v (by simp [JMap.entries])
    obtain ⟨hgk, hgv⟩ := goodMap_entry full hgf k v hmem
    have hlook : full.lookup k = some v := goodMap_lookup full hgf k v hmem
    have hstep : get_value_at_path doc (joinPath p k) = .ok v :=
      resolve_join doc p k (.obj full) v hres (goodKey_ne_nil hgk) (goodKey_no_slash hgk)
        (pyIndex_obj_key full k v (goodKey_not_digit hgk) hlook)
    rcases (by simpa [nodesMap] using hpr :
        pr = (joinPath p k, v) ∨ pr ∈ nodes v (joinPath p k) ∨ pr ∈ nodesMap t p) with h1 | h2 | h3
    · obtain rfl := h1
      exact hstep
    · exact nodes_resolve v doc (joinPath p k) hstep hgv pr h2
    · exact nodesMap_resolve t full doc p hres hgf
        (fun k2 v2 hk2 => hsub k2 v2 (by simp [JMap.entries, hk2])) pr h3
end

/-- C1, amended: for every document whose object keys are nonempty, not
made purely of digits, free of the separator `/`, and distinct within
each object (a dict always has distinct keys; the other three conditions
exclude the keys that the path encoding cannot represent faithfully), the
round trip holds — the PathKey stored on every node built by tree
population resolves through `get_value_at_path` back to the very
JsonValue the node was built from. -/
theorem c1_roundtrip_amended (doc : JsonValue) (h : goodVal doc = true) :
    ∀ pr ∈ nodes doc [], get_value_at_path doc pr.1 = .ok pr.2 :=
  nodes_resolve doc doc [] rfl h

/-- C1, counterexample: the claim promises the round trip for every
loaded document.  Loading the document made of the single entry with the
digit-only key 0 and value 1, population creates a node whose stored
PathKey is the key 0 itself, but resolving that path re-parses the
segment as an integer subscript on the object, which misses: the
resolution returns None instead of the value the node was built from. -/
theorem c1_roundtrip_cex :
    (nodes (.obj (.cons ['0'] (.num 1) .nil)) []).head? = some (['0'], .num 1)
    ∧ get_value_at_path (.obj (.cons ['0'] (.num 1) .nil)) ['0'] = PyResult.none :=
  ⟨rfl, rfl⟩

/-- Witness for `c1_roundtrip_amended` on a concrete well-formed
document with an object, an array and primitives. -/
theorem c1_roundtrip_amended_witness :
    goodVal (.obj (.cons ['a'] (.arr (.cons (.num 1) (.cons .null .nil)))
        (.cons ['b'] (.str ['x']) .nil))) = true
    ∧ ∀ pr ∈ nodes (.obj (.cons ['a'] (.arr (.cons (.num 1) (.cons .null .nil)))
        (.cons ['b'] (.str ['x']) .nil))) [],
        get_value_at_path (.obj (.cons ['a'] (.arr (.cons (.num 1) (.cons .null .nil)))
          (.cons ['b'] (.str ['x']) .nil))) pr.1 = .ok pr.2 :=
  ⟨by decide,
    c1_roundtrip_amended
      (.obj (.cons ['a'] (.arr (.cons (.num 1) (.cons .null .nil)))
        (.cons ['b'] (.str ['x']) .nil))) (by decide)⟩
